import Mathlib

/-!
# Verification of the `encrawl-rust` text-generation core (`src/mamba.rs`)

Shallow embedding of `TextGeneration` from `src/mamba.rs`: the structure, its
constructor `new`, the generation routine `run` (prompt encoding, EOS lookup,
prefill, decode loop with repetition penalty, sampling, EOS stop and token
budget), and the configuration defaults of `Args` / `init`.

Modelling conventions:
* token ids are `Nat` (Rust `u32`), logits are `List ℚ` indexed by token id
  (Rust `Tensor` of `f32`; exact rationals stand in for floats),
* the external collaborators (`tokenizers::Tokenizer`, the mamba `Model` and
  its `State`, candle's `LogitsProcessor` and `apply_repeat_penalty`) are not
  part of this repository; they are modelled from the spec's consumed
  contracts, with the real-valued softmax/categorical draw abstracted as an
  explicit deterministic function,
* fallible steps return `Except GenErr`; the final model state is returned
  alongside so that state-instrumentation (step counting) is observable.
-/

namespace Encrawl

/-- Token ids (Rust `u32`). -/
abbrev Token := Nat

/-- A logits vector, indexed by token id (Rust dense `Tensor` of `f32`). -/
abbrev Logits := List ℚ

/-- Modelled from the spec: the consumed `SequenceModel` contract — a pure
step function `(token_id, state) -> (logits, new_state)` over an opaque
state type `σ` (the mamba `Model` together with its recurrent `State` in
the source; `Model::forward` mutates the state in place, embedded here as
explicit state passing). -/
structure SeqModel (σ : Type) where
  step : Token → σ → Logits × σ

/-- Modelled from the spec: the consumed `TokenCodec` contract
(`tokenizers::Tokenizer` in the source): fallible `encode`, best-effort
`decode`, and the vocabulary used by `get_vocab` for the EOS lookup. -/
structure Tokenizer where
  encode : String → Option (List Token)
  decode : List Token → String
  vocab : List (String × Token)

/-- The key looked up in the vocabulary for the end-of-sequence token
(`src/mamba.rs` line 64). -/
def eosStr : String := "<|endoftext|>"

/-- Errors raised by `TextGeneration::run` (the `anyhow::bail!` sites and the
fallible encode of `src/mamba.rs`). -/
inductive GenErr where
  | encodingError
  | noEosToken
  | emptyPrompt
  deriving DecidableEq, Repr

/-- Index of the maximum entry of a logits vector, first occurrence winning
(ties broken by the lowest token id, per the spec's `SamplingPolicy`).
Auxiliary accumulator recursion: `i` is the index of the head of the
remaining list, `best`/`bestVal` the current winner. -/
def argmaxAux : List ℚ → Nat → Nat → ℚ → Nat
  | [], _, best, _ => best
  | x :: xs, i, best, bestVal =>
      if bestVal < x then argmaxAux xs (i + 1) i x
      else argmaxAux xs (i + 1) best bestVal

/-- Greedy choice: `argmax(logits)`, ties broken by the lowest token id. -/
def argmaxIdx : Logits → Nat
  | [] => 0
  | x :: xs => argmaxAux xs 1 0 x

/-- Modelled from the spec: candle's `LogitsProcessor` (external crate
`candle_transformers::generation`, not part of this repository).  Holds the
sampling configuration and a deterministic pseudo-random generator state
seeded from `seed`.  The real-valued softmax / top-p truncation / categorical
draw of the non-greedy branch is abstracted as the deterministic function
`draw : scaled logits → top_p → rng state → (token, new rng state)`. -/
structure LogitsProcessor where
  temp : Option ℚ
  topP : Option ℚ
  rng : Nat
  draw : Logits → Option ℚ → Nat → Token × Nat

/-- Modelled from the spec: `LogitsProcessor::new(seed, temp, top_p)`; the
abstracted categorical draw is passed explicitly. -/
def LogitsProcessor.new (seed : Nat) (temp topP : Option ℚ)
    (draw : Logits → Option ℚ → Nat → Token × Nat) : LogitsProcessor :=
  { temp := temp, topP := topP, rng := seed, draw := draw }

/-- Modelled from the spec: one sampling call.  `temperature` absent or zero
gives the greedy argmax (deterministic, rng untouched); otherwise the logits
are scaled by `1/temperature` and one token is drawn by the abstracted
deterministic categorical draw, advancing the rng state. -/
def LogitsProcessor.sample (lp : LogitsProcessor) (logits : Logits) :
    Token × LogitsProcessor :=
  match lp.temp with
  | none => (argmaxIdx logits, lp)
  | some t =>
      if t = 0 then (argmaxIdx logits, lp)
      else
        let r := lp.draw (logits.map fun x => x / t) lp.topP lp.rng
        (r.1, { lp with rng := r.2 })

/-- Modelled from the spec: `candle_transformers::utils::apply_repeat_penalty`
(external crate, not part of this repository), per the spec's
`RepetitionPenalty.apply`: every entry whose index occurs in `context` is
divided by `penalty` when non-negative and multiplied by `penalty` when
negative (each distinct index is transformed once); all other entries are
unchanged. -/
def applyRepeatPenalty (logits : Logits) (penalty : ℚ) (context : List Token) :
    Logits :=
  logits.enum.map fun p =>
    if p.1 ∈ context then (if 0 ≤ p.2 then p.2 / penalty else p.2 * penalty)
    else p.2

/-- The repetition-penalty stage of the decode loop, `src/mamba.rs`
lines 83–92: short-circuit when `repeat_penalty == 1.`, otherwise apply the
penalty to the last `repeat_last_n` history entries
(`tokens[tokens.len().saturating_sub(repeat_last_n)..]`; `Nat` subtraction is
saturating). -/
def penaltyStage (repeat_penalty : ℚ) (repeat_last_n : Nat)
    (tokens : List Token) (logits : Logits) : Logits :=
  if repeat_penalty = 1 then logits
  else
    let start_at := tokens.length - repeat_last_n
    applyRepeatPenalty logits repeat_penalty (tokens.drop start_at)

/-- `TextGeneration` of `src/mamba.rs` lines 18–26.  `initState` stands for
`State::new(1, &self.config, dtype, &self.device)` (line 68), the fresh
recurrent state determined by the held `config`/`device`; the `model`,
`config` and `device` fields are folded into `model` and `initState`. -/
structure TextGeneration (σ : Type) where
  model : SeqModel σ
  initState : σ
  tokenizer : Tokenizer
  logits_processor : LogitsProcessor
  repeat_penalty : ℚ
  repeat_last_n : Nat

/-- `TextGeneration::new` (`src/mamba.rs` lines 30–51): stores the parts and
builds the logits processor from `(seed, temp, top_p)`.  It performs no
vocabulary check and cannot fail (its Rust signature returns `Self`, not
`Result`). -/
def TextGeneration.new {σ : Type} (model : SeqModel σ) (initState : σ)
    (tokenizer : Tokenizer) (seed : Nat) (temp topP : Option ℚ)
    (repeat_penalty : ℚ) (repeat_last_n : Nat)
    (draw : Logits → Option ℚ → Nat → Token × Nat) : TextGeneration σ :=
  { model := model
    initState := initState
    tokenizer := tokenizer
    logits_processor := LogitsProcessor.new seed temp topP draw
    repeat_penalty := repeat_penalty
    repeat_last_n := repeat_last_n }

/-- The prefill loop of `run` (`src/mamba.rs` lines 69–74): feed every prompt
token through the model in order, keeping only the logits of the last one;
`(none, s)` is the initial `next_logits = None` with the fresh state. -/
def prefill {σ : Type} (m : SeqModel σ) :
    List Token → Option Logits × σ → Option Logits × σ
  | [], acc => acc
  | t :: ts, acc =>
      prefill m ts (some (m.step t acc.2).1, (m.step t acc.2).2)

/-- The decode loop of `run` (`src/mamba.rs` lines 77–102), with the loop
counter `for _ in 0..sample_len` as fuel.  Each iteration: bail out on a
missing `next_logits` (empty prompt), apply the repetition-penalty stage,
sample, append the token and bump the generated count together, stop on EOS,
otherwise step the model for the next logits. -/
def decodeLoop {σ : Type} (tg : TextGeneration σ) (eos_token : Token) :
    Nat → Option Logits → List Token → Nat → LogitsProcessor → σ →
    Except GenErr (List Token × Nat) × σ
  | 0, _, tokens, generated, _, s => (Except.ok (tokens, generated), s)
  | _ + 1, none, _, _, _, s => (Except.error GenErr.emptyPrompt, s)
  | n + 1, some logits, tokens, generated, lp, s =>
      let adjusted := penaltyStage tg.repeat_penalty tg.repeat_last_n tokens logits
      let next_token := (lp.sample adjusted).1
      if next_token = eos_token then
        (Except.ok (tokens ++ [next_token], generated + 1), s)
      else
        decodeLoop tg eos_token n (some (tg.model.step next_token s).1)
          (tokens ++ [next_token]) (generated + 1) (lp.sample adjusted).2
          (tg.model.step next_token s).2

/-- `TextGeneration::run` up to decoding (`src/mamba.rs` lines 53–102):
encode the prompt, look up the EOS token in the vocabulary, prefill, then run
the decode loop.  Returns the final token history and generated count, paired
with the final model state (observable for instrumentation). -/
def TextGeneration.runAux {σ : Type} (tg : TextGeneration σ) (prompt : String)
    (sample_len : Nat) : Except GenErr (List Token × Nat) × σ :=
  match tg.tokenizer.encode prompt with
  | none => (Except.error GenErr.encodingError, tg.initState)
  | some tokens =>
      match tg.tokenizer.vocab.lookup eosStr with
      | none => (Except.error GenErr.noEosToken, tg.initState)
      | some eos_token =>
          decodeLoop tg eos_token sample_len
            (prefill tg.model tokens (none, tg.initState)).1 tokens 0
            tg.logits_processor
            (prefill tg.model tokens (none, tg.initState)).2

/-- `TextGeneration::run` (`src/mamba.rs` lines 53–113): on success, the
decoded text of the entire token history together with the generated-token
count that the source reports (the `println!` of line 105). -/
def TextGeneration.run {σ : Type} (tg : TextGeneration σ) (prompt : String)
    (sample_len : Nat) : Except GenErr (String × Nat) × σ :=
  match tg.runAux prompt sample_len with
  | (Except.ok (tokens, generated), s) =>
      (Except.ok (tg.tokenizer.decode tokens, generated), s)
  | (Except.error e, s) => (Except.error e, s)

/-- A step-counting wrapper around a sequence model: same logits, state paired
with the number of `step` invocations performed so far. -/
def countSteps {σ : Type} (m : SeqModel σ) : SeqModel (σ × Nat) :=
  ⟨fun t p => ((m.step t p.1).1, ((m.step t p.1).2, p.2 + 1))⟩

/-- Clap default of `Args.seed` (`src/mamba.rs` line 179). -/
def Args.defaultSeed : Nat := 299792458

/-- Clap default of `Args.sample_len` (`src/mamba.rs` line 183). -/
def Args.defaultSampleLen : Nat := 5000

/-- Clap default of `Args.repeat_penalty` (`src/mamba.rs` line 208: the `f32`
literal `1.1`, represented exactly as the rational `11/10`). -/
def Args.defaultRepeatPenalty : ℚ := 11 / 10

/-- Clap default of `Args.repeat_last_n` (`src/mamba.rs` line 212). -/
def Args.defaultRepeatLastN : Nat := 64

/-- The pure tail of `init` (`src/mamba.rs` lines 239–249): after the hub
downloads and file reads (I/O, abstracted by passing the resulting model,
fresh state and tokenizer), the generator is constructed with the hard-coded
arguments `seed = 299792458`, `temp = None`, `top_p = None`,
`repeat_penalty = 1.1`, `repeat_last_n = 64`. -/
def init {σ : Type} (model : SeqModel σ) (initState : σ) (tokenizer : Tokenizer)
    (draw : Logits → Option ℚ → Nat → Token × Nat) : TextGeneration σ :=
  TextGeneration.new model initState tokenizer 299792458 none none
    (11 / 10) 64 draw

/-- The spec's reference `RepetitionPenalty.apply` (§4.3), written from the
spec's words for comparison with the implementation's penalty stage: `R` is
the last `window` entries of the history (fewer when shorter); each distinct
token of `R` has its logit divided by the penalty when non-negative and
multiplied by it when negative; every other entry is unchanged. -/
def specRepetitionPenalty (logits : Logits) (token_history : List Token)
    (window : Nat) (penalty : ℚ) : Logits :=
  let R := token_history.drop (token_history.length - window)
  logits.enum.map fun p =>
    if p.1 ∈ R then (if 0 ≤ p.2 then p.2 / penalty else p.2 * penalty)
    else p.2

/-! ## Helper lemmas -/

/-- Dividing or multiplying by a penalty of `1` is the identity, so even the
unshort-circuited penalty computation is a no-op at penalty `1`. -/
theorem applyRepeatPenalty_one (logits : Logits) (context : List Token) :
    applyRepeatPenalty logits 1 context = logits := by
  simp [applyRepeatPenalty, List.enum_map_snd]

/-- The spec's reference definition is the modelled candle helper applied to
the last `window` history entries. -/
theorem specRepetitionPenalty_eq_apply (logits : Logits) (hist : List Token)
    (window : Nat) (penalty : ℚ) :
    specRepetitionPenalty logits hist window penalty
      = applyRepeatPenalty logits penalty (hist.drop (hist.length - window)) := rfl

/-- Anatomy of a successful decode loop: the final history extends the input
history by the block `new` of generated tokens, the generated count grows by
exactly `new.length`, at most `fuel` tokens are generated, stopping strictly
below the budget happens only by sampling EOS last, and EOS never occurs
before the last generated token. -/
theorem decodeLoop_ok_spec {σ : Type} (tg : TextGeneration σ) (eos_token : Token) :
    ∀ (fuel : Nat) (nl : Option Logits) (tokens : List Token) (generated : Nat)
      (lp : LogitsProcessor) (s : σ) (toks : List Token) (gen : Nat) (s' : σ),
      decodeLoop tg eos_token fuel nl tokens generated lp s
        = (Except.ok (toks, gen), s') →
      ∃ new : List Token,
        toks = tokens ++ new ∧ gen = generated + new.length ∧
        new.length ≤ fuel ∧
        (new.length < fuel → new.getLast? = some eos_token) ∧
        ∀ t ∈ new.dropLast, t ≠ eos_token := by
  intro fuel
  induction fuel with
  | zero =>
      intro nl tokens generated lp s toks gen s' h
      simp only [decodeLoop, Prod.mk.injEq, Except.ok.injEq] at h
      obtain ⟨⟨h1, h2⟩, -⟩ := h
      exact ⟨[], by simp [h1], by simp [h2], by simp,
        fun hlt => absurd hlt (by omega), by simp⟩
  | succ n ih =>
      intro nl tokens generated lp s toks gen s' h
      cases nl with
      | none => simp [decodeLoop] at h
      | some logits =>
          simp only [decodeLoop] at h
          by_cases he :
              (lp.sample (penaltyStage tg.repeat_penalty tg.repeat_last_n
                tokens logits)).1 = eos_token
          · rw [if_pos he] at h
            simp only [Prod.mk.injEq, Except.ok.injEq] at h
            obtain ⟨⟨h1, h2⟩, -⟩ := h
            refine ⟨[(lp.sample (penaltyStage tg.repeat_penalty tg.repeat_last_n
              tokens logits)).1], h1.symm, by simp [← h2], by simp, ?_, by simp⟩
            intro _
            simp [he]
          · rw [if_neg he] at h
            obtain ⟨new₂, h1, h2, h3, h4, h5⟩ := ih _ _ _ _ _ _ _ _ h
            refine ⟨(lp.sample (penaltyStage tg.repeat_penalty tg.repeat_last_n
              tokens logits)).1 :: new₂, ?_, ?_, ?_, ?_, ?_⟩
            · rw [h1]; simp
            · simp only [List.length_cons]; omega
            · simp only [List.length_cons]; omega
            · intro hlt
              have h4' := h4 (by simp only [List.length_cons] at hlt; omega)
              cases new₂ with
              | nil => simp at h4'
              | cons b l => simpa [List.getLast?_cons_cons] using h4'
            · intro t ht
              cases new₂ with
              | nil => simp at ht
              | cons b l =>
                  rw [List.dropLast_cons₂] at ht
                  rcases List.mem_cons.mp ht with rfl | ht'
                  · exact he
                  · exact h5 t ht'

/-- Once `next_logits` is present the decode loop cannot fail: exhausting the
budget (or stopping on EOS) is a successful completion. -/
theorem decodeLoop_some_ok {σ : Type} (tg : TextGeneration σ) (eos_token : Token) :
    ∀ (fuel : Nat) (logits : Logits) (tokens : List Token) (generated : Nat)
      (lp : LogitsProcessor) (s : σ),
      ∃ r s', decodeLoop tg eos_token fuel (some logits) tokens generated lp s
        = (Except.ok r, s') := by
  intro fuel
  induction fuel with
  | zero => intro logits tokens generated lp s; exact ⟨(tokens, generated), s, rfl⟩
  | succ n ih =>
      intro logits tokens generated lp s
      simp only [decodeLoop]
      by_cases he :
          (lp.sample (penaltyStage tg.repeat_penalty tg.repeat_last_n
            tokens logits)).1 = eos_token
      · rw [if_pos he]; exact ⟨_, _, rfl⟩
      · rw [if_neg he]; exact ih _ _ _ _ _

/-- With the temperature unset, sampling is the seed-independent greedy
argmax, so the decode loop ignores the logits-processor state entirely. -/
theorem decodeLoop_greedy {σ : Type} (tg : TextGeneration σ) (eos_token : Token)
    (lp₁ lp₂ : LogitsProcessor) (h₁ : lp₁.temp = none) (h₂ : lp₂.temp = none) :
    ∀ (fuel : Nat) (nl : Option Logits) (tokens : List Token) (generated : Nat)
      (s : σ),
      decodeLoop tg eos_token fuel nl tokens generated lp₁ s
        = decodeLoop tg eos_token fuel nl tokens generated lp₂ s := by
  intro fuel
  induction fuel with
  | zero => intro nl tokens generated s; rfl
  | succ n ih =>
      intro nl tokens generated s
      cases nl with
      | none => rfl
      | some logits =>
          simp only [decodeLoop, LogitsProcessor.sample, h₁, h₂]
          by_cases he :
              argmaxIdx (penaltyStage tg.repeat_penalty tg.repeat_last_n
                tokens logits) = eos_token
          · simp [he]
          · simp [he, ih]

/-- The decode loop never reads the stored logits processor of the generator,
only the model, penalty and window fields. -/
theorem decodeLoop_proc_congr {σ : Type} (m : SeqModel σ) (st : σ)
    (tok : Tokenizer) (lpa lpb : LogitsProcessor) (rp : ℚ) (rn : Nat)
    (eos_token : Token) :
    ∀ (fuel : Nat) (nl : Option Logits) (tokens : List Token) (generated : Nat)
      (lp : LogitsProcessor) (s : σ),
      decodeLoop ⟨m, st, tok, lpa, rp, rn⟩ eos_token fuel nl tokens generated lp s
        = decodeLoop ⟨m, st, tok, lpb, rp, rn⟩ eos_token fuel nl tokens generated lp s := by
  intro fuel
  induction fuel with
  | zero => intro nl tokens generated lp s; rfl
  | succ n ih =>
      intro nl tokens generated lp s
      cases nl with
      | none => rfl
      | some logits =>
          simp only [decodeLoop]
          by_cases he :
              (lp.sample (penaltyStage rp rn tokens logits)).1 = eos_token
          · rw [if_pos he, if_pos he]
          · rw [if_neg he, if_neg he, ih]

/-! ## Concrete stub instances used by witnesses and counterexamples -/

/-- A stub sequence model over a unit state: every step emits the logits
`[0, 3]` (argmax at token id `1`). -/
def mkModel : SeqModel Unit := ⟨fun _ s => ([0, 3], s)⟩

/-- A trivial abstracted categorical draw. -/
def draw0 : Logits → Option ℚ → Nat → Token × Nat := fun _ _ r => (0, r)

/-- A stub tokenizer: every prompt encodes to `[9]`, every history decodes to
`"out"`, and the vocabulary designates token `1` as the terminator. -/
def tokA : Tokenizer := ⟨fun _ => some [9], fun _ => "out", [(eosStr, 1)]⟩

/-- A stub tokenizer whose vocabulary has no terminator entry. -/
def tokNoEos : Tokenizer := ⟨fun _ => some [9], fun _ => "out", []⟩

/-- A stub tokenizer encoding every prompt to zero tokens. -/
def tokEmpty : Tokenizer := ⟨fun _ => some [], fun _ => "", [(eosStr, 5)]⟩

/-- A concrete greedy generator over `mkModel`/`tokA` with penalty `1`. -/
def tgA : TextGeneration Unit :=
  TextGeneration.new mkModel () tokA 0 none none 1 64 draw0

/-! ## Claims -/

/-- C1, counterexample: a generator is constructed (construction cannot fail;
the Rust `new` returns `Self`) over a tokenizer whose vocabulary lacks the
terminator, and the missing-EOS failure is raised by the subsequent `run`
call, which performs the vocabulary lookup — refuting that the check happens
at construction and that no `run` call performs this lookup. -/
theorem run_fails_without_eos_concrete :
    (TextGeneration.new mkModel () tokNoEos 0 none none 1 64 draw0).run "p" 3
      = (Except.error GenErr.noEosToken, ()) := rfl

/-- C1 (amended): the designated-terminator check is performed inside every
`run` call — after prompt encoding, before any prefill or decode work — not
at construction: whenever the vocabulary lacks `<|endoftext|>`, `run` fails
with the missing-EOS error and returns the untouched fresh state. -/
theorem eos_lookup_in_run {σ : Type} (tg : TextGeneration σ) (prompt : String)
    (sample_len : Nat) (ptoks : List Token)
    (henc : tg.tokenizer.encode prompt = some ptoks)
    (hvocab : tg.tokenizer.vocab.lookup eosStr = none) :
    tg.run prompt sample_len = (Except.error GenErr.noEosToken, tg.initState) := by
  simp [TextGeneration.run, TextGeneration.runAux, henc, hvocab]

/-- C1, witness. -/
theorem eos_lookup_in_run_witness :
    (TextGeneration.new mkModel () tokNoEos 1 none none 1 64 draw0).run "q" 2
      = (Except.error GenErr.noEosToken, ()) :=
  eos_lookup_in_run _ "q" 2 [9] rfl rfl

/-- The spec scenario's raw logits: `logits[7] = 4`, `logits[9] = -2`. -/
def logitsSc : Logits := [0, 0, 0, 0, 0, 0, 0, 4, 0, -2]

/-- C2 (confirmed): the implementation's repetition-penalty stage (the
penalty-1 short-circuit plus the candle helper applied to the last
`repeat_last_n` history entries) agrees with the spec's reference definition
on every logits vector, token history, window and penalty; in particular, on
the spec scenario (window 2, history `[7, 7, 9]`, penalty 2) logit 7 is
halved to 2, logit 9 is doubled to -4, and every other entry is unchanged. -/
theorem repeat_penalty_matches_reference :
    (∀ (logits : Logits) (token_history : List Token) (window : Nat)
      (penalty : ℚ),
      penaltyStage penalty window token_history logits
        = specRepetitionPenalty logits token_history window penalty)
    ∧ penaltyStage 2 2 [7, 7, 9] logitsSc = [0, 0, 0, 0, 0, 0, 0, 2, 0, -4] := by
  constructor
  · intro logits hist window penalty
    rw [specRepetitionPenalty_eq_apply]
    unfold penaltyStage
    by_cases h : penalty = 1
    · rw [if_pos h, h, applyRepeatPenalty_one]
    · rw [if_neg h]
  · simp [penaltyStage, applyRepeatPenalty, logitsSc, List.enum, List.enumFrom]
    norm_num

/-- C3 (confirmed): a successful `run` generates at most `sample_len` tokens;
it stops strictly below the budget only by sampling EOS, which is then the
last generated token; EOS never occurs before the last generated token (the
loop breaks as soon as EOS is sampled); and once logits exist the decode loop
always completes successfully — exhausting the budget is not an error. -/
theorem generation_budget_and_eos_stop :
    (∀ (σ : Type) (tg : TextGeneration σ) (prompt : String) (sample_len : Nat)
      (ptoks toks : List Token) (gen : Nat) (s : σ) (eos_token : Token),
      tg.tokenizer.encode prompt = some ptoks →
      tg.tokenizer.vocab.lookup eosStr = some eos_token →
      tg.runAux prompt sample_len = (Except.ok (toks, gen), s) →
      gen ≤ sample_len ∧
      (gen < sample_len → (toks.drop ptoks.length).getLast? = some eos_token) ∧
      ∀ t ∈ (toks.drop ptoks.length).dropLast, t ≠ eos_token)
    ∧ ∀ (σ : Type) (tg : TextGeneration σ) (eos_token : Token) (fuel : Nat)
        (logits : Logits) (tokens : List Token) (generated : Nat)
        (lp : LogitsProcessor) (s : σ),
        ∃ r s', decodeLoop tg eos_token fuel (some logits) tokens generated lp s
          = (Except.ok r, s') := by
  constructor
  · intro σ tg prompt sample_len ptoks toks gen s eos_token henc hvocab hrun
    simp only [TextGeneration.runAux, henc, hvocab] at hrun
    obtain ⟨new, h1, h2, h3, h4, h5⟩ := decodeLoop_ok_spec tg eos_token _ _ _ _ _ _ _ _ _ hrun
    have hd : toks.drop ptoks.length = new := by
      rw [h1]; exact List.drop_left _ _
    refine ⟨by omega, ?_, ?_⟩
    · intro hlt
      rw [hd]
      exact h4 (by omega)
    · rw [hd]
      exact h5
  · exact fun σ tg eos_token fuel logits tokens generated lp s =>
      decodeLoop_some_ok tg eos_token fuel logits tokens generated lp s

/-- C3, witness: with `tgA` (EOS id 1, argmax at 1) and budget 3, one token
is generated and the run stops early on EOS. -/
theorem generation_budget_and_eos_stop_witness :
    1 ≤ 3 ∧ (1 < 3 → (([9, 1].drop 1).getLast? = some 1)) ∧
      ∀ t ∈ ([9, 1].drop 1).dropLast, t ≠ 1 :=
  generation_budget_and_eos_stop.1 Unit tgA "p" 3 [9] [9, 1] 1 () 1 rfl rfl rfl

/-- C4, counterexample: with a zero token budget, a prompt that encodes to
zero tokens does not make `run` fail — the empty-prompt check sits inside the
first decode iteration, and the loop body never executes. -/
theorem empty_prompt_zero_budget_succeeds :
    (TextGeneration.new mkModel () tokEmpty 7 none none 1 64 draw0).run "x" 0
      = (Except.ok ("", 0), ()) := rfl

/-- C4 (amended): for every prompt encoding to zero tokens and every positive
token budget, `run` fails with the empty-prompt error; the prefill loop over
zero tokens performs no model step (it returns the fresh state and no
logits), so no model step precedes the error. -/
theorem empty_prompt_fails_before_step {σ : Type} (tg : TextGeneration σ)
    (prompt : String) (sample_len : Nat) (eos_token : Token)
    (henc : tg.tokenizer.encode prompt = some [])
    (hvocab : tg.tokenizer.vocab.lookup eosStr = some eos_token)
    (hpos : 1 ≤ sample_len) :
    tg.run prompt sample_len = (Except.error GenErr.emptyPrompt, tg.initState)
      ∧ prefill tg.model [] (none, tg.initState) = (none, tg.initState) := by
  obtain ⟨n, rfl⟩ : ∃ n, sample_len = n + 1 := ⟨sample_len - 1, by omega⟩
  exact ⟨by simp [TextGeneration.run, TextGeneration.runAux, henc, hvocab,
    prefill, decodeLoop], rfl⟩

/-- C4, witness: instrumented with a step counter starting at zero, the
empty-prompt failure returns with the counter still at zero — no model step
was invoked before the error. -/
theorem empty_prompt_fails_before_step_witness :
    (TextGeneration.new (countSteps mkModel) ((), 0) tokEmpty 0 none none 1 64
        draw0).run "" 1
      = (Except.error GenErr.emptyPrompt, ((), 0))
    ∧ prefill (countSteps mkModel) [] (none, ((), 0)) = (none, ((), 0)) :=
  empty_prompt_fails_before_step _ "" 1 5 rfl rfl (by omega)

/-- C5 (confirmed): a repeat penalty of exactly `1` is short-circuited to an
exact no-op — the penalty stage returns the very input logits — and even the
unshort-circuited penalty computation at penalty `1` leaves every entry
unchanged. -/
theorem penalty_one_is_noop :
    (∀ (logits : Logits) (tokens : List Token) (repeat_last_n : Nat),
      penaltyStage 1 repeat_last_n tokens logits = logits)
    ∧ ∀ (logits : Logits) (context : List Token),
      applyRepeatPenalty logits 1 context = logits :=
  ⟨fun logits tokens n => by simp [penaltyStage], applyRepeatPenalty_one⟩

/-- C6, counterexample: the default repeat penalty is the `f32` literal
`1.1`, not `1.0` — repetition penalty is not disabled by default. -/
theorem default_repeat_penalty_not_one :
    Args.defaultRepeatPenalty = 11 / 10 ∧ Args.defaultRepeatPenalty ≠ 1 :=
  ⟨rfl, by norm_num [Args.defaultRepeatPenalty]⟩

/-- C6 (amended): the clap default for the repeat penalty is `1.1` (so the
penalty is enabled by default) and the default repeat window is the fixed
constant `64`; `init` likewise hard-codes `1.1` and `64`. -/
theorem default_sampling_args :
    Args.defaultRepeatPenalty = 11 / 10 ∧ Args.defaultRepeatLastN = 64 ∧
    ∀ (σ : Type) (m : SeqModel σ) (st : σ) (tok : Tokenizer)
      (d : Logits → Option ℚ → Nat → Token × Nat),
      (init m st tok d).repeat_penalty = 11 / 10 ∧
      (init m st tok d).repeat_last_n = 64 :=
  ⟨rfl, rfl, fun _ _ _ _ _ => ⟨rfl, rfl⟩⟩

/-- C7 (confirmed): a successful `run` returns the decoding of the entire
token history — the prompt tokens followed by the block of all generated
tokens, not the continuation alone — and reports the number of generated
tokens. -/
theorem run_decodes_full_history {σ : Type} (tg : TextGeneration σ)
    (prompt : String) (sample_len : Nat) (ptoks toks : List Token) (gen : Nat)
    (s : σ)
    (henc : tg.tokenizer.encode prompt = some ptoks)
    (hrun : tg.runAux prompt sample_len = (Except.ok (toks, gen), s)) :
    tg.run prompt sample_len = (Except.ok (tg.tokenizer.decode toks, gen), s)
      ∧ ∃ generated_block : List Token,
          toks = ptoks ++ generated_block ∧ gen = generated_block.length := by
  refine ⟨by simp [TextGeneration.run, hrun], ?_⟩
  rcases hvocab : tg.tokenizer.vocab.lookup eosStr with - | eos_token
  · simp only [TextGeneration.runAux, henc, hvocab] at hrun
    simp at hrun
  · simp only [TextGeneration.runAux, henc, hvocab] at hrun
    obtain ⟨new, h1, h2, -, -, -⟩ :=
      decodeLoop_ok_spec tg eos_token _ _ _ _ _ _ _ _ _ hrun
    exact ⟨new, h1, by omega⟩

/-- C7, witness. -/
theorem run_decodes_full_history_witness :
    tgA.run "p" 3 = (Except.ok ("out", 1), ())
      ∧ ∃ generated_block : List Token,
          [9, 1] = [9] ++ generated_block ∧ 1 = generated_block.length :=
  run_decodes_full_history tgA "p" 3 [9] [9, 1] 1 () rfl rfl

/-- C8 (confirmed): the sampled token is appended and the generated count
incremented together, so every decode-loop execution preserves the invariant
`len(token_history) = prefill_length + generated_count`, and at the end of a
successful `run` the history length equals the prompt length plus the
generated count. -/
theorem history_length_invariant :
    (∀ (σ : Type) (tg : TextGeneration σ) (eos_token : Token) (fuel : Nat)
      (nl : Option Logits) (tokens : List Token) (generated : Nat)
      (lp : LogitsProcessor) (s : σ) (toks : List Token) (gen : Nat) (s' : σ)
      (prefill_length : Nat),
      tokens.length = prefill_length + generated →
      decodeLoop tg eos_token fuel nl tokens generated lp s
        = (Except.ok (toks, gen), s') →
      toks.length = prefill_length + gen)
    ∧ ∀ (σ : Type) (tg : TextGeneration σ) (prompt : String) (sample_len : Nat)
        (ptoks toks : List Token) (gen : Nat) (s : σ),
        tg.tokenizer.encode prompt = some ptoks →
        tg.runAux prompt sample_len = (Except.ok (toks, gen), s) →
        toks.length = ptoks.length + gen := by
  constructor
  · intro σ tg eos_token fuel nl tokens generated lp s toks gen s'
      prefill_length hinv hrun
    obtain ⟨new, h1, h2, -, -, -⟩ :=
      decodeLoop_ok_spec tg eos_token _ _ _ _ _ _ _ _ _ hrun
    rw [h1, List.length_append]
    omega
  · intro σ tg prompt sample_len ptoks toks gen s henc hrun
    rcases hvocab : tg.tokenizer.vocab.lookup eosStr with - | eos_token
    · simp only [TextGeneration.runAux, henc, hvocab] at hrun
      simp at hrun
    · simp only [TextGeneration.runAux, henc, hvocab] at hrun
      obtain ⟨new, h1, h2, -, -, -⟩ :=
        decodeLoop_ok_spec tg eos_token _ _ _ _ _ _ _ _ _ hrun
      rw [h1, List.length_append]
      omega

/-- C8, witness. -/
theorem history_length_invariant_witness :
    ([9, 1] : List Token).length = ([9] : List Token).length + 1 :=
  history_length_invariant.2 Unit tgA "p" 3 [9] [9, 1] 1 () rfl rfl

/-- C9 (confirmed): reproducibility and greedy determinism — two generators
agreeing on all stored fields (model, fresh state, tokenizer, sampling
configuration including the seed, penalty and window) produce identical
output text and generated counts for the same prompt and budget; and with
the temperature unset, the output is independent of the seed (and of the
abstracted categorical draw) entirely. -/
theorem generation_deterministic :
    (∀ (σ : Type) (tg₁ tg₂ : TextGeneration σ),
      tg₁.model = tg₂.model → tg₁.initState = tg₂.initState →
      tg₁.tokenizer = tg₂.tokenizer →
      tg₁.logits_processor = tg₂.logits_processor →
      tg₁.repeat_penalty = tg₂.repeat_penalty →
      tg₁.repeat_last_n = tg₂.repeat_last_n →
      ∀ (prompt : String) (sample_len : Nat),
        tg₁.run prompt sample_len = tg₂.run prompt sample_len)
    ∧ ∀ (σ : Type) (m : SeqModel σ) (st : σ) (tok : Tokenizer)
        (topP : Option ℚ) (rp : ℚ) (rn : Nat)
        (d₁ d₂ : Logits → Option ℚ → Nat → Token × Nat) (seed₁ seed₂ : Nat)
        (prompt : String) (sample_len : Nat),
        (TextGeneration.new m st tok seed₁ none topP rp rn d₁).run
            prompt sample_len
          = (TextGeneration.new m st tok seed₂ none topP rp rn d₂).run
            prompt sample_len := by
  constructor
  · intro σ tg₁ tg₂ h1 h2 h3 h4 h5 h6 prompt sample_len
    cases tg₁
    cases tg₂
    dsimp only at h1 h2 h3 h4 h5 h6
    subst h1; subst h2; subst h3; subst h4; subst h5; subst h6
    rfl
  · intro σ m st tok topP rp rn d₁ d₂ seed₁ seed₂ prompt sample_len
    have haux : (TextGeneration.new m st tok seed₁ none topP rp rn d₁).runAux
        prompt sample_len
        = (TextGeneration.new m st tok seed₂ none topP rp rn d₂).runAux
        prompt sample_len := by
      simp only [TextGeneration.runAux, TextGeneration.new, LogitsProcessor.new]
      cases tok.encode prompt with
      | none => rfl
      | some ptoks =>
          cases tok.vocab.lookup eosStr with
          | none => rfl
          | some eos_token =>
              dsimp only
              rw [decodeLoop_proc_congr m st tok ⟨none, topP, seed₁, d₁⟩
                ⟨none, topP, seed₂, d₂⟩ rp rn eos_token]
              exact decodeLoop_greedy _ eos_token ⟨none, topP, seed₁, d₁⟩
                ⟨none, topP, seed₂, d₂⟩ rfl rfl _ _ _ _ _
    rcases hres : (TextGeneration.new m st tok seed₂ none topP rp rn d₂).runAux
        prompt sample_len with ⟨r, s⟩
    unfold TextGeneration.run
    rw [haux, hres]
    rcases r with e | ⟨toks, gen⟩ <;> rfl

/-- C9, witness. -/
theorem generation_deterministic_witness :
    tgA.run "p" 3
      = (TextGeneration.new mkModel () tokA 0 none none 1 64 draw0).run "p" 3 :=
  generation_deterministic.1 Unit tgA
    (TextGeneration.new mkModel () tokA 0 none none 1 64 draw0)
    rfl rfl rfl rfl rfl rfl "p" 3

/-- C10 (confirmed): with a zero token budget `run` succeeds right after
prefill, returning the decoded prompt and a generated count of zero — for
every prompt, including one encoding to zero tokens, since the empty-prompt
check sits inside the decode-loop body, which never executes. -/
theorem zero_budget_returns_prompt {σ : Type} (tg : TextGeneration σ)
    (prompt : String) (ptoks : List Token) (eos_token : Token)
    (henc : tg.tokenizer.encode prompt = some ptoks)
    (hvocab : tg.tokenizer.vocab.lookup eosStr = some eos_token) :
    tg.run prompt 0
      = (Except.ok (tg.tokenizer.decode ptoks, 0),
          (prefill tg.model ptoks (none, tg.initState)).2) := by
  simp [TextGeneration.run, TextGeneration.runAux, henc, hvocab, decodeLoop]

/-- C10, witness: the empty-encoding case. -/
theorem zero_budget_returns_prompt_witness :
    (TextGeneration.new mkModel () tokEmpty 0 none none 1 64 draw0).run "" 0
      = (Except.ok ("", 0), ()) :=
  zero_budget_returns_prompt _ "" [] 5 rfl rfl

end Encrawl
